import Mathlib

/-!
Verification of the eXaM (xm) unit-testing framework core against its
natural-language specification.

Strings from the C++ sources (`char const*` ranges, `std::string`,
`std::string_view`) are modelled as `List Char`.  The repository contains the
main source `xm.cpp` plus later revisions of the same translation unit inside
`README.md`; where revisions differ, both are embedded and named with a
suffix: `...Cpp` for the `xm.cpp` revision (substring-search based matcher),
`...Rec` / `...SV` for the recursive-matcher revisions.

Loops that are not structurally recursive are embedded with an explicit fuel
argument; each top-level wrapper supplies a fuel that the loop can never
exhaust (the relevant bound is stated in a comment at the definition), so the
fuelled function agrees with the C++ loop on every input.
-/

/-- Models `strchr(string, ch)` for `ch ≠ '\0'` on the NUL-terminated buffer
`s`: the suffix of `s` starting at the first occurrence of `ch`, or `none`
when `ch` does not occur before the terminator. -/
def strchrModel (ch : Char) : List Char → Option (List Char)
  | [] => none
  | c :: cs => if c = ch then some (c :: cs) else strchrModel ch cs

/-- Models the inner `do { ++iFind; ++string; } while (*string == *iFind && iFind != findEnd)`
of `FindSubstring` (xm.cpp lines 158-163), comparing the pattern tail `p`
against the string tail `s`.  `Sum.inl s'` means the pattern was matched to
its end and `s'` is the rest of the string after the match (the loop exits
with `iFind == findEnd`); `Sum.inr s'` means a mismatch, with `s'` the string
suffix at the mismatch position (the search resumes from there via
`goto LOOP`).  A comparison against the string's NUL terminator (modelled by
the empty list) always mismatches, because the pattern contains no NUL. -/
def fsCompare : List Char → List Char → Sum (List Char) (List Char)
  | [], s => Sum.inl s
  | _ :: _, [] => Sum.inr []
  | f :: fs, c :: cs => if c = f then fsCompare fs cs else Sum.inr (c :: cs)

/-- The `LOOP:` of `FindSubstring` (xm.cpp lines 151-170): `strchr` for the
first pattern character, then the comparison loop; on a mismatch the search
resumes from the mismatch position.  Every resumption point is a strictly
shorter suffix of `s`, so fuel `s.length + 1` (supplied by `FindSubstring`)
is never exhausted. -/
def fsLoop (f0 : Char) (fRest : List Char) : Nat → List Char → Option (List Char)
  | 0, _ => none
  | fuel + 1, s =>
    match strchrModel f0 s with
    | none => none
    | some [] => none
    | some (_ :: rest) =>
      match fsCompare fRest rest with
      | Sum.inl tail => some tail
      | Sum.inr resume => fsLoop f0 fRest fuel resume

/-- `FindSubstring` (xm.cpp lines 144-171): finds the expression `find` in the
NUL-terminated string `s`; returns the suffix of `s` just past the end of the
found occurrence, or `none`.  An empty expression matches immediately and the
original string is returned. -/
def FindSubstring (find s : List Char) : Option (List Char) :=
  match find with
  | [] => some s
  | f0 :: fRest => fsLoop f0 fRest (s.length + 1) s

/-- The `while (filter != filterEnd)` loop of `FilterMatch` (xm.cpp lines
176-199).  A run of wildcards is skipped (`std::find_if`); if that exhausts
the filter the match succeeds.  Otherwise the next literal segment is cut at
`strcspn(filter, ":*")` — `FilterMatch` is only invoked on `':'`-delimited
tokens, which contain no `':'`, so within such a token the segment ends at
the next `'*'` (or the token's end) — and searched for with `FindSubstring`.
When the filter is exhausted the result is `id == idEnd`.  Every iteration
consumes at least one filter character, so fuel `filter.length + 1` (supplied
by `FilterMatchCpp`) is never exhausted. -/
def fmcLoop : Nat → List Char → List Char → Bool
  | 0, _, _ => false
  | fuel + 1, filter, id =>
    match filter with
    | [] => decide (id = [])
    | f :: fs =>
      if f = '*' then
        match fs.dropWhile (· = '*') with
        | [] => true
        | g :: gs =>
          match FindSubstring ((g :: gs).takeWhile (· ≠ '*')) id with
          | none => false
          | some id1 => fmcLoop fuel ((g :: gs).dropWhile (· ≠ '*')) id1
      else
        match FindSubstring ((f :: fs).takeWhile (· ≠ '*')) id with
        | none => false
        | some id1 => fmcLoop fuel ((f :: fs).dropWhile (· ≠ '*')) id1

/-- `FilterMatch` of xm.cpp (lines 176-199): match one filter token against
the id range, handling wildcards via `FindSubstring`. -/
def FilterMatchCpp (filter id : List Char) : Bool :=
  fmcLoop (filter.length + 1) filter id

/-- The `while (i != iEnd)` loop of `FiltersMatch` (xm.cpp lines 203-218):
cut the next token at `strcspn(i, ":")`, try `FilterMatch`, then step past the
token and — when not at the very end — the `':'` delimiter
(`i = subEnd + (subEnd != iEnd)`).  Every iteration consumes at least one
character of `filters`, so fuel `filters.length + 1` is never exhausted. -/
def fltLoop : Nat → List Char → List Char → Bool
  | 0, _, _ => false
  | fuel + 1, filters, id =>
    match filters with
    | [] => false
    | c :: cs =>
      if FilterMatchCpp ((c :: cs).takeWhile (· ≠ ':')) id then true
      else
        match (c :: cs).dropWhile (· ≠ ':') with
        | [] => false
        | _ :: rest => fltLoop fuel rest id

/-- `FiltersMatch` of xm.cpp (lines 203-218): true if any of the
`':'`-delimited filter tokens matches the id. -/
def FiltersMatchCpp (filters id : List Char) : Bool :=
  fltLoop (filters.length + 1) filters id

/-- The token decomposition performed by the `FiltersMatch` loop: the
`':'`-delimited tokens it tries, in order (a trailing `':'` produces no final
empty token, because the loop re-checks `i != iEnd`).  Same recursion
structure, and therefore the same fuel bound, as `fltLoop`. -/
def ftokLoop : Nat → List Char → List (List Char)
  | 0, _ => []
  | fuel + 1, s =>
    match s with
    | [] => []
    | c :: cs =>
      (c :: cs).takeWhile (· ≠ ':') ::
        match (c :: cs).dropWhile (· ≠ ':') with
        | [] => []
        | _ :: rest => ftokLoop fuel rest

/-- The list of filter tokens the `FiltersMatch` loop iterates over. -/
def filterTokens (s : List Char) : List (List Char) :=
  ftokLoop (s.length + 1) s

/-- The id built by `IsAllowed` (xm.cpp lines 222-229):
`snprintf(..., "%s%c%s", suite, kJoinTestSuiteName, name)` with
`kJoinTestSuiteName = '_'`. -/
def candidateId (suite name : List Char) : List Char :=
  suite ++ '_' :: name

/-- `IsAllowed` of xm.cpp (lines 222-229), with the filter globals
`sIncludeFilter` / `sExcludeFilter` passed explicitly: the id passes the
include filters and not the exclude filters.  (The `snprintf` buffer
mechanics are modelled separately by `IsAllowedBuffered`.) -/
def IsAllowedCpp (inc exc suite name : List Char) : Bool :=
  FiltersMatchCpp inc (candidateId suite name) &&
    ! FiltersMatchCpp exc (candidateId suite name)

/-- Models the `snprintf` call of `IsAllowed` into the 1024-byte
`sMessageBuffer` (xm.cpp lines 127, 224-226): the buffer receives at most
1023 characters of the joined id (plus the NUL terminator), while the
returned length — from which `idEnd` is computed — is the length of the
untruncated output. -/
def snprintfId (suite name : List Char) : List Char × Nat :=
  ((candidateId suite name).take 1023, (candidateId suite name).length)

/-- `IsAllowed` of xm.cpp with the buffer mechanics made explicit: the
filters are matched against the range `[ sMessageBuffer, sMessageBuffer + idLen )`,
i.e. against the first `idLen` characters available in the buffer. -/
def IsAllowedBuffered (inc exc suite name : List Char) : Bool :=
  FiltersMatchCpp inc ((snprintfId suite name).1.take (snprintfId suite name).2) &&
    ! FiltersMatchCpp exc ((snprintfId suite name).1.take (snprintfId suite name).2)

/-- `SetFilter` (xm.cpp lines 244-263): restore the defaults (include `"*"`,
exclude empty); when a string is given, the characters before the first `'-'`
(`strcspn(filterStr, "-")`) become the include filter — only when that
portion is nonempty (`negative > filterStr`) — and on a `'-'` everything
after it becomes the exclude filter. -/
def SetFilter : Option (List Char) → List Char × List Char
  | none => (['*'], [])
  | some s =>
    let before := s.takeWhile (· ≠ '-')
    (if before = [] then ['*'] else before,
      match s.dropWhile (· ≠ '-') with
      | [] => []
      | _ :: rest => rest)

/-- Body of the recursive `FilterMatch` of the README revisions (string_view
revision lines 1262-1288 and pointer revision lines 1703-1729, identical
semantics): empty id succeeds iff only wildcards remain in the filter; an
exhausted filter fails; a matching head character consumes both; a wildcard
either matches zero characters (skip it) or one more id character.  Every
recursive call decreases `filter.length + id.length`, so fuel
`filter.length + id.length + 1` is never exhausted. -/
def fmr : Nat → List Char → List Char → Bool
  | 0, _, _ => false
  | fuel + 1, filter, id =>
    match id with
    | [] => filter.all (· = '*')
    | i :: rest =>
      match filter with
      | [] => false
      | f :: fs =>
        if f = i then fmr fuel fs rest
        else if f = '*' then fmr fuel fs (i :: rest) || fmr fuel (f :: fs) rest
        else false

/-- The recursive `FilterMatch` of the README revisions. -/
def FilterMatchRec (filter id : List Char) : Bool :=
  fmr (filter.length + id.length + 1) filter id

/-- The `FiltersMatch` loop of the README revisions (string_view revision
lines 1293-1311, pointer revision lines 1734-1752): same `':'` tokenization
as `FiltersMatchCpp`, but each token is tried with the recursive
`FilterMatch`. -/
def fltLoopSV : Nat → List Char → List Char → Bool
  | 0, _, _ => false
  | fuel + 1, filters, id =>
    match filters with
    | [] => false
    | c :: cs =>
      if FilterMatchRec ((c :: cs).takeWhile (· ≠ ':')) id then true
      else
        match (c :: cs).dropWhile (· ≠ ':') with
        | [] => false
        | _ :: rest => fltLoopSV fuel rest id

/-- `FiltersMatch` of the README revisions. -/
def FiltersMatchSV (filters id : List Char) : Bool :=
  fltLoopSV (filters.length + 1) filters id

/-- `IsAllowed` of the string_view revision (README lines 1314-1318): the
already-built id is checked against include and exclude filters. -/
def IsAllowedSV (inc exc id : List Char) : Bool :=
  FiltersMatchSV inc id && ! FiltersMatchSV exc id

/-- Spec-side rendering of the claim "the tokens before the first '-'
boundary become the include patterns": the include filter string the claim
prescribes for a given configuration string. -/
def specIncludeOf (s : List Char) : List Char :=
  s.takeWhile (· ≠ '-')

/-- Spec-side rendering of "C starts with P (literal prefix containment)". -/
def startsWithL (p c : List Char) : Bool :=
  decide (c.take p.length = p)

/-- Spec-side rendering of "C ends with P". -/
def endsWithL (p c : List Char) : Bool :=
  startsWithL p.reverse c.reverse

/-- State of a `CartesianProductCore<tSize>` instance (README lines 871-919):
the per-axis value counts `mSizes`, the per-axis indices `mState` (all fields
zero-initialised by `Array mState{}`), and `CartesianProductCoreCore`'s
`mIteration`.  The fixed-size `std::array`s are modelled as lists of equal
length.  The fields are `uint32_t`, modelled as `Nat` with the overflow made
explicit where it can occur: `mIteration` is incremented unconditionally by
`Advance`, so `cartAdvance` reduces it modulo 2^32 = 4294967296, keeping every
reachable `iteration` value equal to the `uint32_t` value; the axis indices
never leave `[0, size)` and the sizes are element counts of the declared
value arrays, so no other field arithmetic can wrap. -/
structure CartExp where
  sizes : List Nat
  state : List Nat
  iteration : Nat
deriving DecidableEq

/-- The `do { if (++mState[i] < mSizes[i]) ... } while (i < tSize)` of
`CartesianProductCore::Advance` (README lines 896-910): increment the index
of axis `i` starting at axis 0; when it stays below the axis size, done with
`true`; otherwise zero it and carry into the next axis; `false` once every
axis has overflowed.  The catch-all arm is the loop falling off the end of
the axes. -/
def advanceState : List Nat → List Nat → Bool × List Nat
  | s :: ss, x :: xs =>
    if x + 1 < s then (true, (x + 1) :: xs)
    else
      let r := advanceState ss xs
      (r.1, 0 :: r.2)
  | _, _ => (false, [])

/-- `CartesianProductCore::Advance`: `++mIteration`, then the carry loop.
`mIteration` is a `uint32_t` (README line 874), so the increment wraps modulo
2^32 = 4294967296. -/
def cartAdvance (e : CartExp) : Bool × CartExp :=
  let r := advanceState e.sizes e.state
  (r.1, { e with state := r.2, iteration := (e.iteration + 1) % 4294967296 })

/-- `CartesianProductCore::Reset` (README lines 912-918): zero every axis
index.  Note that `mIteration` is not assigned. -/
def cartReset (e : CartExp) : CartExp :=
  { e with state := e.state.map (fun _ => 0) }

/-- A freshly constructed expander: `mState{}` zero-initialises every index
and `mIteration = 0`. -/
def cartInit (sizes : List Nat) : CartExp :=
  { sizes := sizes, state := sizes.map (fun _ => 0), iteration := 0 }

/-- The expander after `k` calls to `Advance()` (discarding the returned
Booleans). -/
def cartStepN : Nat → CartExp → CartExp
  | 0, e => e
  | k + 1, e => cartStepN k (cartAdvance e).2

/-- Total number of combinations: the product of the axis value counts. -/
def prodList (l : List Nat) : Nat :=
  l.foldr (· * ·) 1

/-- The mixed-radix value of an index vector, axis 0 least significant —
the ordinal of the combination in the enumeration order of `Advance`. -/
def stateVal : List Nat → List Nat → Nat
  | s :: ss, x :: xs => x + s * stateVal ss xs
  | _, _ => 0

/-- An index vector is valid for the given sizes when it has one in-range
index per axis. -/
def validState : List Nat → List Nat → Bool
  | [], [] => true
  | s :: ss, x :: xs => decide (x < s) && validState ss xs
  | _, _ => false

/-- `CartesianProduct::GetProductSet` (README lines 945-962): one value per
axis, selected by the current indices (`std::begin(set)[index]`).  Axis
values are modelled uniformly as strings. -/
def getProductSet (axes : List (List (List Char))) (state : List Nat) : List (List Char) :=
  List.zipWith (fun ax i => ax.getD i []) axes state

/-- `CartesianProduct::FormatState` (README lines 935-943): render
`_<axisName>[<index>]` for every axis, using the current indices. -/
def formatState (names : List (List Char)) (state : List Nat) : List Char :=
  (List.zipWith (fun n i => '_' :: n ++ '[' :: (Nat.repr i).toList ++ [']']) names state).flatten

/-- Outcome of one execution of a test body: normal return, an xm
`Exception{message}` thrown by `Fail` / a failed assert, or any other thrown
object. -/
inductive Outcome
  | ok
  | failMsg (msg : List Char)
  | failOther
deriving DecidableEq

/-- `Test::Run` of xm.cpp (lines 397-414) / the free `RunTest` of the
string_view revision (README lines 1354-1371): `true` on normal return;
otherwise `false`, with `sError` set to the exception's message, or to
"Bad exception thrown." for a non-xm exception.  The second component is the
`sError` value the caller observes. -/
def testRun : Outcome → Bool × Option (List Char)
  | .ok => (true, none)
  | .failMsg m => (false, some m)
  | .failOther => (false, some ("Bad exception thrown.".toList))

/-- One line of the runner's report stream, reduced to its content (status
tag and payload); timing and colour are presentation-only and omitted. -/
inductive Event
  | suiteHeader (suite : List Char)
  | started (id : List Char)
  | finished (id : List Char) (passed : Bool)
  | errorLine (msg : List Char)
deriving DecidableEq

/-- A test declared with `XM_TEST` / `XM_TEST_F` in the xm.cpp revision:
static suite and name plus its body's behaviour. -/
structure PlainTest where
  suite : List Char
  name : List Char
  body : Outcome
deriving DecidableEq

/-- The mutable tallies and output of a `RunTests` pass: `run`, `passed`,
`ignored`, the `lastSuite` pointer (modelled by the suite string; the C++
compares `char const*` literals, which coincides with string comparison for
the macro-generated literal suite names), and the emitted events. -/
structure RunAcc where
  run : Nat
  passed : Nat
  ignored : Nat
  lastSuite : Option (List Char)
  events : List Event
deriving DecidableEq

/-- The shared body of the `while (test)` loop of `RunTests` — xm.cpp lines
272-307 and the README string_view revision lines 1381-1419 have the same
per-visit structure, differing only in how `allowed` and `id` are computed:
if allowed, emit the suite header when the suite differs from `lastSuite`,
emit the started line, run the body, emit the result line, count `passed` /
print `sError`, and count `run`; otherwise just count `ignored`. -/
def visitTest (allowed : Bool) (suite id : List Char) (outcome : Outcome) (acc : RunAcc) : RunAcc :=
  if allowed then
    let acc1 :=
      if some suite = acc.lastSuite then acc
      else
        { acc with
          events := acc.events ++ [Event.suiteHeader suite]
          lastSuite := some suite }
    let r := testRun outcome
    let acc2 := { acc1 with
      events := acc1.events ++ [Event.started id, Event.finished id r.1] }
    let acc3 :=
      if r.1 then { acc2 with passed := acc2.passed + 1 }
      else
        match r.2 with
        | some msg => { acc2 with events := acc2.events ++ [Event.errorLine msg] }
        | none => acc2
    { acc3 with run := acc3.run + 1 }
  else
    { acc with ignored := acc.ignored + 1 }

/-- One iteration of the xm.cpp `RunTests` loop for one registered test:
`IsAllowed(test->mSuite, test->mName)` decides, and the printed id is
`suite_name`. -/
def visitCpp (inc exc : List Char) (t : PlainTest) (acc : RunAcc) : RunAcc :=
  visitTest (IsAllowedCpp inc exc t.suite t.name) t.suite (candidateId t.suite t.name) t.body acc

/-- The xm.cpp `RunTests` loop over the registry (declaration order). -/
def runAllCpp (inc exc : List Char) : List PlainTest → RunAcc → RunAcc
  | [], acc => acc
  | t :: ts, acc => runAllCpp inc exc ts (visitCpp inc exc t acc)

/-- `RunTests` of xm.cpp (lines 265-322): walk the registry, then return
`run - passed`.  The final tally block only reports the counters already in
the accumulator and is not modelled as events. -/
def RunTestsCpp (inc exc : List Char) (tests : List PlainTest) : Nat × RunAcc :=
  let acc := runAllCpp inc exc tests
    { run := 0, passed := 0, ignored := 0, lastSuite := none, events := [] }
  (acc.run - acc.passed, acc)

/-- A test declared in the README revision with parameterized support: plain
tests (`XM_TEST` / `XM_TEST_F`), and `XM_TEST_C` tests carrying a cartesian
space of named axes and a body receiving the product set and the iteration
ordinal. -/
inductive TestDesc
  | plain (suite name : List Char) (body : Outcome)
  | param (suite name : List Char) (axes : List (List Char × List (List Char)))
      (body : List (List Char) → Nat → Outcome)

/-- The id of an `XM_TEST_C` descriptor: `Test::GetId` (suite`_`name,
README lines 1513-1516) followed by `FormatState` (the `GetId` override of
`XM_TEST_C`, README lines 1056-1059). -/
def paramId (suite name : List Char) (axes : List (List Char × List (List Char)))
    (state : List Nat) : List Char :=
  candidateId suite name ++ formatState (axes.map (·.1)) state

/-- The sizes of a cartesian space's axes (`GetElementSizes`, README lines
951-955). -/
def axesSizes (axes : List (List Char × List (List Char))) : List Nat :=
  axes.map (·.2.length)

/-- The visits the README-revision `RunTests` loop (lines 1381-1420) makes
to one `XM_TEST_C` descriptor: build the id via `GetId` (with the
`FormatState` suffix), filter with `IsAllowed(id)`, run or ignore, then
`test = test->GetNext()`, whose `XM_TEST_C` override (README line 1060) is
`Advance() ? this : (Reset(), Test::GetNext())` — so the loop revisits the
same descriptor while `Advance()` returns true, and calls `Reset()` before
moving on once it returns false.  Each visit makes exactly one `Advance()`
call, which wraps to false after at most `prodList (axesSizes axes)` calls
from any valid state, so the fuel supplied by `runDescSV` is never
exhausted.  Returns the final accumulator and the descriptor's expander. -/
def paramVisits (inc exc suite name : List Char)
    (axes : List (List Char × List (List Char)))
    (body : List (List Char) → Nat → Outcome) :
    Nat → CartExp → RunAcc → RunAcc × CartExp
  | 0, e, acc => (acc, e)
  | fuel + 1, e, acc =>
    let id := paramId suite name axes e.state
    let acc1 := visitTest (IsAllowedSV inc exc id) suite id
      (body (getProductSet (axes.map (·.2)) e.state) e.iteration) acc
    let r := cartAdvance e
    if r.1 then paramVisits inc exc suite name axes body fuel r.2 acc1
    else (acc1, cartReset r.2)

/-- Processing of one registry entry by the README-revision `RunTests`: a
plain test is visited once (its `GetNext` is the base `Test::GetNext`); an
`XM_TEST_C` test is visited once per combination, starting from its
declaration-time state (all indices and the iteration counter zero). -/
def runDescSV (inc exc : List Char) (d : TestDesc) (acc : RunAcc) : RunAcc :=
  match d with
  | .plain suite name body =>
    visitTest (IsAllowedSV inc exc (candidateId suite name)) suite
      (candidateId suite name) body acc
  | .param suite name axes body =>
    (paramVisits inc exc suite name axes body (prodList (axesSizes axes))
      (cartInit (axesSizes axes)) acc).1

/-- `RunTests` of the README string_view revision (lines 1373-1436): walk the
registry and return `run - passed`. -/
def RunTestsSV (inc exc : List Char) (tests : List TestDesc) : Nat × RunAcc :=
  let acc := tests.foldl (fun acc d => runDescSV inc exc d acc)
    { run := 0, passed := 0, ignored := 0, lastSuite := none, events := [] }
  (acc.run - acc.passed, acc)

/-- The suite-header lines of an event stream, in order. -/
def suiteHeadersOf (es : List Event) : List (List Char) :=
  es.filterMap (fun e => match e with | .suiteHeader s => some s | _ => none)

/-- The started lines of an event stream, in order. -/
def startedOf (es : List Event) : List (List Char) :=
  es.filterMap (fun e => match e with | .started i => some i | _ => none)

/-- The finished lines of an event stream: id and pass/fail, in order. -/
def finishedOf (es : List Event) : List (List Char × Bool) :=
  es.filterMap (fun e => match e with | .finished i b => some (i, b) | _ => none)

/-- Consecutive deduplication seeded with the previously seen element: the
suites for which a header line fires, given the suites of the executed tests
in order. -/
def headerChain : Option (List Char) → List (List Char) → List (List Char)
  | _, [] => []
  | last, s :: ss =>
    if some s = last then headerChain last ss
    else s :: headerChain (some s) ss

theorem fmr_succ_nil (fuel : Nat) (filter : List Char) :
    fmr (fuel + 1) filter [] = filter.all (· = '*') := rfl

theorem fmr_succ_nil_cons (fuel : Nat) (i : Char) (rest : List Char) :
    fmr (fuel + 1) [] (i :: rest) = false := rfl

theorem fmr_succ_cons (fuel : Nat) (f : Char) (fs : List Char) (i : Char) (rest : List Char) :
    fmr (fuel + 1) (f :: fs) (i :: rest) =
      if f = i then fmr fuel fs rest
      else if f = '*' then fmr fuel fs (i :: rest) || fmr fuel (f :: fs) rest
      else false := rfl

theorem take_eq_iff_append : ∀ (p c : List Char), c.take p.length = p ↔ ∃ t, c = p ++ t := by
  intro p
  induction p with
  | nil => intro c; simp
  | cons a p ih =>
    intro c
    cases c with
    | nil => simp
    | cons i rest =>
      simp only [List.length_cons, List.take_succ_cons, List.cons_append, List.cons.injEq]
      constructor
      · rintro ⟨rfl, h2⟩
        obtain ⟨t, rfl⟩ := (ih rest).1 h2
        exact ⟨t, rfl, rfl⟩
      · rintro ⟨t, rfl, rfl⟩
        exact ⟨rfl, (ih _).2 ⟨t, rfl⟩⟩

theorem startsWithL_iff (p c : List Char) : startsWithL p c = true ↔ ∃ t, c = p ++ t := by
  rw [startsWithL, decide_eq_true_iff]
  exact take_eq_iff_append p c

theorem endsWithL_iff (p c : List Char) : endsWithL p c = true ↔ ∃ t, c = t ++ p := by
  rw [endsWithL, startsWithL_iff]
  constructor
  · rintro ⟨t, ht⟩
    refine ⟨t.reverse, ?_⟩
    have h2 := congrArg List.reverse ht
    simpa using h2
  · rintro ⟨t, rfl⟩
    exact ⟨t.reverse, by simp⟩

theorem all_star_iff_nil (p : List Char) (hp : '*' ∉ p) : (p.all (· = '*') = true ↔ p = []) := by
  cases p with
  | nil => simp
  | cons a q =>
    have ha : a ≠ '*' := fun h => hp (h ▸ List.mem_cons_self a q)
    simp [ha]

theorem all_cons_star (p : List Char) : ('*' :: p).all (· = '*') = p.all (· = '*') := by
  simp

theorem fmr_star : ∀ (fuel : Nat) (c : List Char), c.length + 1 < fuel → '*' ∉ c →
    fmr fuel ['*'] c = true := by
  intro fuel
  induction fuel with
  | zero => intro c h hc; exact absurd h (Nat.not_lt_zero _)
  | succ n ih =>
    intro c h hc
    cases c with
    | nil => rfl
    | cons i rest =>
      have hi : ¬ ('*' = i) := fun h2 => hc (h2 ▸ List.mem_cons_self i rest)
      rw [fmr_succ_cons, if_neg hi, if_pos rfl]
      have h2 : fmr n ['*'] rest = true :=
        ih rest (by simp at h; omega) (fun hm => hc (List.mem_cons_of_mem _ hm))
      rw [h2, Bool.or_true]

theorem fmr_exact : ∀ (fuel : Nat) (p c : List Char), p.length + c.length < fuel → '*' ∉ p →
    (fmr fuel p c = true ↔ p = c) := by
  intro fuel
  induction fuel with
  | zero => intro p c h hp; exact absurd h (Nat.not_lt_zero _)
  | succ n ih =>
    intro p c h hp
    cases c with
    | nil =>
      rw [fmr_succ_nil]
      exact all_star_iff_nil p hp
    | cons i rest =>
      cases p with
      | nil => simp [fmr_succ_nil_cons]
      | cons f fs =>
        have hf : f ≠ '*' := fun h2 => hp (h2 ▸ List.mem_cons_self f fs)
        by_cases hfi : f = i
        · subst hfi
          rw [fmr_succ_cons, if_pos rfl]
          rw [ih fs rest (by simp at h; omega) (fun hm => hp (List.mem_cons_of_mem _ hm))]
          simp
        · rw [fmr_succ_cons, if_neg hfi, if_neg hf]
          simp [hfi]

theorem fmr_lit_star : ∀ (fuel : Nat) (p c : List Char),
    (p.length + 1) + c.length < fuel → '*' ∉ p → '*' ∉ c →
    (fmr fuel (p ++ ['*']) c = true ↔ ∃ t, c = p ++ t) := by
  intro fuel
  induction fuel with
  | zero => intro p c h hp hc; exact absurd h (Nat.not_lt_zero _)
  | succ n ih =>
    intro p c h hp hc
    cases p with
    | nil =>
      simp only [List.nil_append]
      constructor
      · intro _; exact ⟨c, rfl⟩
      · intro _; exact fmr_star (n + 1) c (by simp at h; omega) hc
    | cons a p' =>
      have ha : a ≠ '*' := fun h2 => hp (h2 ▸ List.mem_cons_self a p')
      cases c with
      | nil =>
        rw [List.cons_append, fmr_succ_nil]
        constructor
        · intro h2
          simp [List.all_cons, ha] at h2
        · rintro ⟨t, ht⟩
          exact absurd ht (by simp)
      | cons i rest =>
        rw [List.cons_append, fmr_succ_cons]
        by_cases hai : a = i
        · subst hai
          rw [if_pos rfl]
          rw [ih p' rest (by simp at h; omega)
            (fun hm => hp (List.mem_cons_of_mem _ hm))
            (fun hm => hc (List.mem_cons_of_mem _ hm))]
          constructor
          · rintro ⟨t, rfl⟩; exact ⟨t, rfl⟩
          · rintro ⟨t, ht⟩
            injection ht with h1 h2
            exact ⟨t, h2⟩
        · rw [if_neg hai, if_neg ha]
          constructor
          · intro h2; exact absurd h2 (by simp)
          · rintro ⟨t, ht⟩
            injection ht with h1 h2
            exact absurd h1.symm hai

theorem fmr_star_lit : ∀ (fuel : Nat) (p c : List Char),
    (p.length + 1) + c.length < fuel → '*' ∉ p → '*' ∉ c →
    (fmr fuel ('*' :: p) c = true ↔ ∃ t, c = t ++ p) := by
  intro fuel
  induction fuel with
  | zero => intro p c h hp hc; exact absurd h (Nat.not_lt_zero _)
  | succ n ih =>
    intro p c h hp hc
    cases c with
    | nil =>
      rw [fmr_succ_nil, all_cons_star, all_star_iff_nil p hp]
      constructor
      · rintro rfl; exact ⟨[], rfl⟩
      · rintro ⟨t, ht⟩
        exact (List.append_eq_nil.1 ht.symm).2
    | cons i rest =>
      have hi : ¬ ('*' = i) := fun h2 => hc (h2 ▸ List.mem_cons_self i rest)
      rw [fmr_succ_cons, if_neg hi, if_pos rfl, Bool.or_eq_true]
      rw [fmr_exact n p (i :: rest) (by simp at h; simp; omega) hp]
      rw [ih p rest (by simp at h; omega) hp (fun hm => hc (List.mem_cons_of_mem _ hm))]
      constructor
      · rintro (rfl | ⟨t, rfl⟩)
        · exact ⟨[], rfl⟩
        · exact ⟨i :: t, rfl⟩
      · rintro ⟨t, ht⟩
        cases t with
        | nil => left; exact ht.symm
        | cons x t' =>
          right
          injection ht with h1 h2
          exact ⟨t', h2⟩

theorem FilterMatchRec_exact (p c : List Char) (hp : '*' ∉ p) :
    (FilterMatchRec p c = true ↔ p = c) :=
  fmr_exact _ p c (Nat.lt_succ_self _) hp

theorem FilterMatchRec_startsWith (p c : List Char) (hp : '*' ∉ p) (hc : '*' ∉ c) :
    (FilterMatchRec (p ++ ['*']) c = true ↔ startsWithL p c = true) := by
  rw [FilterMatchRec, fmr_lit_star _ p c (by simp) hp hc, startsWithL_iff]

theorem FilterMatchRec_endsWith (p c : List Char) (hp : '*' ∉ p) (hc : '*' ∉ c) :
    (FilterMatchRec ('*' :: p) c = true ↔ endsWithL p c = true) := by
  rw [FilterMatchRec, fmr_star_lit _ p c (by simp) hp hc, endsWithL_iff]

theorem fltLoop_succ_cons (n : Nat) (c : Char) (cs id : List Char) :
    fltLoop (n + 1) (c :: cs) id =
      if FilterMatchCpp ((c :: cs).takeWhile (· ≠ ':')) id then true
      else
        match (c :: cs).dropWhile (· ≠ ':') with
        | [] => false
        | _ :: rest => fltLoop n rest id := rfl

theorem ftokLoop_succ_cons (n : Nat) (c : Char) (cs : List Char) :
    ftokLoop (n + 1) (c :: cs) =
      (c :: cs).takeWhile (· ≠ ':') ::
        match (c :: cs).dropWhile (· ≠ ':') with
        | [] => []
        | _ :: rest => ftokLoop n rest := rfl

theorem fltLoop_eq_any : ∀ (fuel : Nat) (s id : List Char), s.length < fuel →
    fltLoop fuel s id = (ftokLoop fuel s).any (fun t => FilterMatchCpp t id) := by
  intro fuel
  induction fuel with
  | zero => intro s id h; exact absurd h (Nat.not_lt_zero _)
  | succ n ih =>
    intro s id h
    cases s with
    | nil => rfl
    | cons c cs =>
      rw [fltLoop_succ_cons, ftokLoop_succ_cons]
      simp only [List.any_cons]
      cases hm : FilterMatchCpp ((c :: cs).takeWhile (· ≠ ':')) id with
      | true => rw [if_pos rfl, Bool.true_or]
      | false =>
        rw [if_neg (by decide), Bool.false_or]
        cases hd : (c :: cs).dropWhile (· ≠ ':') with
        | nil => rfl
        | cons x rest =>
          have h1 : ((c :: cs).dropWhile (· ≠ ':')).length ≤ (c :: cs).length :=
            (List.dropWhile_sublist _).length_le
          rw [hd] at h1
          exact ih rest id (by simp at h1 h; omega)

theorem FiltersMatchCpp_eq_any (f id : List Char) :
    FiltersMatchCpp f id = (filterTokens f).any (fun t => FilterMatchCpp t id) :=
  fltLoop_eq_any (f.length + 1) f id (Nat.lt_succ_self _)

theorem FilterMatchCpp_nil (id : List Char) : FilterMatchCpp [] id = decide (id = []) := rfl

theorem any_filter_nonempty (id : List Char) (hid : ¬ id = []) :
    ∀ l : List (List Char),
      ((l.filter (fun t => !t.isEmpty)).any (fun t => FilterMatchCpp t id)) =
        l.any (fun t => FilterMatchCpp t id) := by
  intro l
  induction l with
  | nil => rfl
  | cons t ts ih =>
    cases t with
    | nil => simp [List.filter_cons, List.any_cons, FilterMatchCpp_nil, hid, ih]
    | cons x xs => simp [List.filter_cons, List.any_cons, ih]

/-- C1: the spec claims that a wildcard-free pattern matches exactly itself.  This
holds in general for the recursive `FilterMatch` of the later revisions (whose
self-test asserts `filter("B", "AB")` to be false), but the `FindSubstring`-based
`FilterMatch` of xm.cpp accepts the pattern "B" against the candidate "AB": its
substring search anchors neither end, only requiring the first found occurrence to
end at the candidate's end. -/
theorem c1_wildcardFree_match_is_equality :
    (∀ p c : List Char, '*' ∉ p → (FilterMatchRec p c = true ↔ p = c)) ∧
    FilterMatchCpp "B".toList "AB".toList = true ∧
    "B".toList ≠ "AB".toList ∧
    FilterMatchRec "B".toList "AB".toList = false :=
  ⟨fun p c hp => FilterMatchRec_exact p c hp, by decide, by decide, by decide⟩

theorem c1_witness :
    ('*' ∉ "B".toList) ∧
      ((FilterMatchRec "B".toList "AB".toList = true) ↔ "B".toList = "AB".toList) :=
  ⟨by decide, c1_wildcardFree_match_is_equality.1 "B".toList "AB".toList (by decide)⟩

/-- C2: the spec claims `P ++ "*"` matches exactly the candidates starting with P,
and `"*" ++ P` exactly those ending with P.  Both equivalences hold in general for
the recursive `FilterMatch` of the later revisions (on wildcard-free data), but the
xm.cpp `FilterMatch` rejects "*C" against "CABC" — which ends with "C", and which
the repository's own self-test asserts to match — because its substring search
commits to the first occurrence of "C"; and it accepts "B*" against "AB", which
does not start with "B". -/
theorem c2_star_makes_affix_match :
    (∀ p c : List Char, '*' ∉ p → '*' ∉ c →
        ((FilterMatchRec (p ++ ['*']) c = true ↔ startsWithL p c = true) ∧
         (FilterMatchRec ('*' :: p) c = true ↔ endsWithL p c = true))) ∧
    FilterMatchCpp "*C".toList "CABC".toList = false ∧
    endsWithL "C".toList "CABC".toList = true ∧
    FilterMatchRec "*C".toList "CABC".toList = true ∧
    FilterMatchCpp "B*".toList "AB".toList = true ∧
    startsWithL "B".toList "AB".toList = false :=
  ⟨fun p c hp hc => ⟨FilterMatchRec_startsWith p c hp hc, FilterMatchRec_endsWith p c hp hc⟩,
   by decide, by decide, by decide, by decide, by decide⟩

theorem c2_witness :
    ('*' ∉ "C".toList) ∧ ('*' ∉ "CABC".toList) ∧
      ((FilterMatchRec ('*' :: "C".toList) "CABC".toList = true) ↔
        endsWithL "C".toList "CABC".toList = true) :=
  ⟨by decide, by decide,
   (c2_star_makes_affix_match.1 "C".toList "CABC".toList (by decide) (by decide)).2⟩

/-- C3: the filter decision is `MatchAny(include, id) AND NOT MatchAny(exclude, id)`
where `MatchAny` is true iff some token of the `':'`-split pattern list matches;
the empty pattern list matches no candidate; and the default filters
(include `"*"`, exclude empty) allow every candidate. -/
theorem c3_isAllowed_decision (inc exc suite name : List Char) :
    (IsAllowedCpp inc exc suite name = true ↔
      ((filterTokens inc).any (fun t => FilterMatchCpp t (candidateId suite name)) = true ∧
       (filterTokens exc).any (fun t => FilterMatchCpp t (candidateId suite name)) = false)) ∧
    (∀ c : List Char, FiltersMatchCpp [] c = false) ∧
    IsAllowedCpp ['*'] [] suite name = true := by
  refine ⟨?_, fun c => rfl, rfl⟩
  rw [IsAllowedCpp, FiltersMatchCpp_eq_any, FiltersMatchCpp_eq_any]
  simp [Bool.and_eq_true, Bool.not_eq_true']

theorem c3_witness :
    IsAllowedCpp ['*'] [] "Suite".toList "Name".toList = true :=
  (c3_isAllowed_decision ['a'] ['b'] "Suite".toList "Name".toList).2.2

/-- C7 counterexample: for the configuration string "-x" there are no tokens before
the first '-', so by the claim the include pattern list would be empty (match
nothing); `SetFilter` instead leaves the default include filter `"*"`, observably
allowing the candidate "A_B" that an empty include list would reject. -/
theorem c7_counterexample :
    (SetFilter (some "-x".toList)).1 = ['*'] ∧
    specIncludeOf "-x".toList = [] ∧
    (SetFilter (some "-x".toList)).1 ≠ specIncludeOf "-x".toList ∧
    FiltersMatchCpp (SetFilter (some "-x".toList)).1 "A_B".toList = true ∧
    FiltersMatchCpp (specIncludeOf "-x".toList) "A_B".toList = false :=
  ⟨by decide, by decide, by decide, by decide, by decide⟩

/-- C7 (amended): `SetFilter` keeps the default include filter `"*"` when the
portion before the first '-' is empty, otherwise that portion becomes the include
filter string; the portion after the first '-' becomes the exclude filter string
(absent a '-' there are no exclusions; absent a string both defaults stand); and
at match time empty tokens are ignored for every nonempty candidate id. -/
theorem c7_setFilter_parsing :
    (SetFilter none = (['*'], [])) ∧
    (∀ s : List Char, (SetFilter (some s)).1 =
        if s.takeWhile (· ≠ '-') = [] then ['*'] else s.takeWhile (· ≠ '-')) ∧
    (∀ s : List Char, (SetFilter (some s)).2 =
        match s.dropWhile (· ≠ '-') with
        | [] => []
        | _ :: rest => rest) ∧
    (∀ s : List Char, '-' ∉ s → (SetFilter (some s)).2 = []) ∧
    (∀ f id : List Char, id ≠ [] →
        FiltersMatchCpp f id =
          ((filterTokens f).filter (fun t => !t.isEmpty)).any
            (fun t => FilterMatchCpp t id)) := by
  refine ⟨rfl, fun s => rfl, fun s => rfl, ?_, ?_⟩
  · intro s hs
    have h2 : s.dropWhile (· ≠ '-') = [] :=
      List.dropWhile_eq_nil_iff.2
        (fun x hx => decide_eq_true (fun h3 : x = '-' => hs (h3 ▸ hx)))
    show (match s.dropWhile (· ≠ '-') with | [] => [] | _ :: rest => rest) = []
    rw [h2]
  · intro f id hid
    rw [FiltersMatchCpp_eq_any, any_filter_nonempty id hid]

theorem c7_witness :
    ('-' ∉ "abc".toList) ∧ ((SetFilter (some "abc".toList)).2 = []) ∧
    ("A_B".toList ≠ ([] : List Char)) ∧
    (FiltersMatchCpp "a::b".toList "A_B".toList =
      ((filterTokens "a::b".toList).filter (fun t => !t.isEmpty)).any
        (fun t => FilterMatchCpp t "A_B".toList)) :=
  ⟨by decide, c7_setFilter_parsing.2.2.2.1 _ (by decide), by decide,
   c7_setFilter_parsing.2.2.2.2 _ _ (by decide)⟩

/-- C10: when the joined id `suite_name` fits the 1024-byte buffer (length at most
1023), `snprintf` writes it untruncated, the returned length equals the written
length and stays within the buffer, and the filter match over the buffer range is
the match over the complete id. -/
theorem c10_buffered_id_safe (inc exc suite name : List Char)
    (h : (candidateId suite name).length ≤ 1023) :
    (snprintfId suite name).1 = candidateId suite name ∧
    (snprintfId suite name).2 = (snprintfId suite name).1.length ∧
    (snprintfId suite name).2 ≤ 1023 ∧
    IsAllowedBuffered inc exc suite name = IsAllowedCpp inc exc suite name := by
  have h1 : (candidateId suite name).take 1023 = candidateId suite name :=
    List.take_of_length_le h
  have h2 : (snprintfId suite name).1.take (snprintfId suite name).2 =
      candidateId suite name := by
    show ((candidateId suite name).take 1023).take (candidateId suite name).length = _
    rw [h1, List.take_length]
  refine ⟨h1, ?_, h, ?_⟩
  · show (candidateId suite name).length = ((candidateId suite name).take 1023).length
    rw [h1]
  · unfold IsAllowedBuffered IsAllowedCpp
    rw [h2]

theorem c10_witness :
    ((candidateId "A".toList "B".toList).length ≤ 1023) ∧
    IsAllowedBuffered ['*'] [] "A".toList "B".toList =
      IsAllowedCpp ['*'] [] "A".toList "B".toList :=
  ⟨by decide, (c10_buffered_id_safe ['*'] [] "A".toList "B".toList (by decide)).2.2.2⟩

theorem cartAdvance_fst (e : CartExp) :
    (cartAdvance e).1 = (advanceState e.sizes e.state).1 := rfl

theorem cartAdvance_state (e : CartExp) :
    (cartAdvance e).2.state = (advanceState e.sizes e.state).2 := rfl

theorem cartAdvance_iteration (e : CartExp) :
    (cartAdvance e).2.iteration = (e.iteration + 1) % 4294967296 := rfl

theorem cartAdvance_sizes (e : CartExp) : (cartAdvance e).2.sizes = e.sizes := rfl

theorem validState_zeros (sizes : List Nat) (h : ∀ s ∈ sizes, 0 < s) :
    validState sizes (sizes.map (fun _ => 0)) = true := by
  induction sizes with
  | nil => rfl
  | cons s ss ih =>
    simp only [List.map_cons, validState, Bool.and_eq_true, decide_eq_true_iff]
    exact ⟨h s (List.mem_cons_self s ss), ih (fun x hx => h x (List.mem_cons_of_mem _ hx))⟩

theorem stateVal_zeros (sizes : List Nat) :
    stateVal sizes (sizes.map (fun _ => 0)) = 0 := by
  induction sizes with
  | nil => rfl
  | cons s ss ih =>
    show 0 + s * stateVal ss (ss.map (fun _ => 0)) = 0
    rw [ih]
    simp

theorem stateVal_lt_prod : ∀ (sizes st : List Nat), validState sizes st = true →
    stateVal sizes st < prodList sizes := by
  intro sizes
  induction sizes with
  | nil =>
    intro st h
    cases st with
    | nil => exact Nat.zero_lt_one
    | cons x xs => exact absurd h (by simp [validState])
  | cons s ss ih =>
    intro st h
    cases st with
    | nil => exact absurd h (by simp [validState])
    | cons x xs =>
      simp only [validState, Bool.and_eq_true, decide_eq_true_iff] at h
      obtain ⟨hx, hv⟩ := h
      have hlt := ih xs hv
      show x + s * stateVal ss xs < prodList (s :: ss)
      have h2 : s * (stateVal ss xs + 1) ≤ s * prodList ss := Nat.mul_le_mul_left s hlt
      have h3 : prodList (s :: ss) = s * prodList ss := rfl
      have h4 : s * (stateVal ss xs + 1) = s * stateVal ss xs + s := Nat.mul_succ s _
      omega

theorem advanceState_spec : ∀ (sizes st : List Nat), validState sizes st = true →
    ((stateVal sizes st + 1 < prodList sizes →
        (advanceState sizes st).1 = true ∧
        validState sizes (advanceState sizes st).2 = true ∧
        stateVal sizes (advanceState sizes st).2 = stateVal sizes st + 1) ∧
     (stateVal sizes st + 1 = prodList sizes →
        (advanceState sizes st).1 = false ∧
        (advanceState sizes st).2 = sizes.map (fun _ => 0))) := by
  intro sizes
  induction sizes with
  | nil =>
    intro st h
    cases st with
    | nil =>
      constructor
      · intro h2; simp [stateVal, prodList] at h2
      · intro _; exact ⟨rfl, rfl⟩
    | cons x xs => exact absurd h (by simp [validState])
  | cons s ss ih =>
    intro st h
    cases st with
    | nil => exact absurd h (by simp [validState])
    | cons x xs =>
      simp only [validState, Bool.and_eq_true, decide_eq_true_iff] at h
      obtain ⟨hx, hv⟩ := h
      have hvlt := stateVal_lt_prod ss xs hv
      have h5 : stateVal (s :: ss) (x :: xs) = x + s * stateVal ss xs := rfl
      have h6 : prodList (s :: ss) = s * prodList ss := rfl
      have hms : s * (stateVal ss xs + 1) = s * stateVal ss xs + s := Nat.mul_succ s _
      by_cases hinc : x + 1 < s
      · have ha : advanceState (s :: ss) (x :: xs) = (true, (x + 1) :: xs) := by
          simp [advanceState, hinc]
        constructor
        · intro _
          rw [ha]
          refine ⟨rfl, ?_, ?_⟩
          · show validState (s :: ss) ((x + 1) :: xs) = true
            simp only [validState, Bool.and_eq_true, decide_eq_true_iff]
            exact ⟨hinc, hv⟩
          · show x + 1 + s * stateVal ss xs = x + s * stateVal ss xs + 1
            omega
        · intro heq
          exfalso
          have h2 : s * (stateVal ss xs + 1) ≤ s * prodList ss :=
            Nat.mul_le_mul_left s hvlt
          omega
      · have hxs : x + 1 = s := by omega
        have hs0 : 0 < s := by omega
        have ha : advanceState (s :: ss) (x :: xs) =
            ((advanceState ss xs).1, 0 :: (advanceState ss xs).2) := by
          simp [advanceState, hinc]
        constructor
        · intro hlt
          have h7 : s * (stateVal ss xs + 1) < s * prodList ss := by omega
          have h8 : stateVal ss xs + 1 < prodList ss := Nat.lt_of_mul_lt_mul_left h7
          obtain ⟨hb, hv2, hval2⟩ := (ih xs hv).1 h8
          rw [ha]
          refine ⟨hb, ?_, ?_⟩
          · show validState (s :: ss) (0 :: (advanceState ss xs).2) = true
            simp only [validState, Bool.and_eq_true, decide_eq_true_iff]
            exact ⟨hs0, hv2⟩
          · show 0 + s * stateVal ss (advanceState ss xs).2 =
              x + s * stateVal ss xs + 1
            rw [hval2]
            omega
        · intro heq
          have h7 : s * (stateVal ss xs + 1) = s * prodList ss := by omega
          have h8 : stateVal ss xs + 1 = prodList ss :=
            Nat.eq_of_mul_eq_mul_left hs0 h7
          obtain ⟨hb, hz⟩ := (ih xs hv).2 h8
          rw [ha]
          refine ⟨hb, ?_⟩
          show (0 : Nat) :: (advanceState ss xs).2 = (s :: ss).map (fun _ => 0)
          rw [hz]
          rfl

theorem cartStepN_succ_right (k : Nat) (e : CartExp) :
    cartStepN (k + 1) e = (cartAdvance (cartStepN k e)).2 := by
  induction k generalizing e with
  | zero => rfl
  | succ n ih =>
    rw [show cartStepN (n + 1 + 1) e = cartStepN (n + 1) (cartAdvance e).2 from rfl, ih]
    rfl

theorem cartStepN_sizes (k : Nat) (e : CartExp) : (cartStepN k e).sizes = e.sizes := by
  induction k generalizing e with
  | zero => rfl
  | succ n ih =>
    rw [show cartStepN (n + 1) e = cartStepN n (cartAdvance e).2 from rfl, ih]
    rfl

theorem cartStepN_iteration (k : Nat) (e : CartExp) (h : e.iteration < 4294967296) :
    (cartStepN k e).iteration = (e.iteration + k) % 4294967296 := by
  induction k generalizing e with
  | zero =>
    show e.iteration = (e.iteration + 0) % 4294967296
    rw [Nat.add_zero, Nat.mod_eq_of_lt h]
  | succ n ih =>
    rw [show cartStepN (n + 1) e = cartStepN n (cartAdvance e).2 from rfl,
      ih (cartAdvance e).2
        (by rw [cartAdvance_iteration]; exact Nat.mod_lt _ (by norm_num)),
      cartAdvance_iteration, Nat.mod_add_mod]
    congr 1
    omega

theorem cartStepN_invariant (sizes : List Nat) (h : ∀ s ∈ sizes, 0 < s) :
    ∀ k, k < prodList sizes →
      validState sizes (cartStepN k (cartInit sizes)).state = true ∧
      stateVal sizes (cartStepN k (cartInit sizes)).state = k := by
  intro k
  induction k with
  | zero => exact fun _ => ⟨validState_zeros sizes h, stateVal_zeros sizes⟩
  | succ n ih =>
    intro hk
    obtain ⟨hv, hval⟩ := ih (Nat.lt_of_succ_lt hk)
    rw [cartStepN_succ_right, cartAdvance_state, cartStepN_sizes]
    show validState sizes (advanceState sizes _).2 = true ∧
      stateVal sizes (advanceState sizes _).2 = n + 1
    have hlt : stateVal sizes (cartStepN n (cartInit sizes)).state + 1 < prodList sizes := by
      omega
    obtain ⟨_, hv2, hval2⟩ := (advanceState_spec sizes _ hv).1 hlt
    exact ⟨hv2, by omega⟩

theorem prodList_pos (sizes : List Nat) (h : ∀ s ∈ sizes, 0 < s) : 0 < prodList sizes := by
  have h1 := stateVal_lt_prod sizes _ (validState_zeros sizes h)
  omega

theorem zipWith_getD_zeros :
    ∀ (axes : List (List (List Char))) (st : List Nat), st.length = axes.length →
      List.zipWith (fun ax i => ax.getD i []) axes (st.map (fun _ => 0)) =
        axes.map (fun ax => ax.headD []) := by
  intro axes
  induction axes with
  | nil =>
    intro st h
    cases st with
    | nil => rfl
    | cons x xs => simp at h
  | cons ax axs ih =>
    intro st h
    cases st with
    | nil => simp at h
    | cons x xs =>
      simp only [List.map_cons, List.zipWith_cons_cons]
      rw [ih xs (by simpa using h)]
      cases ax <;> rfl

/-- C5 counterexample: after one `Advance()` and a `Reset()` on a two-axis
expander, every axis index is zero again but the iteration counter is 1, not 0 —
`Reset` never assigns `mIteration`. -/
theorem c5_counterexample :
    (cartReset (cartAdvance (cartInit [3, 3])).2).state = [0, 0] ∧
    (cartReset (cartAdvance (cartInit [3, 3])).2).iteration = 1 ∧
    ¬ (cartReset (cartAdvance (cartInit [3, 3])).2).iteration = 0 :=
  ⟨by decide, by decide, by decide⟩

/-- C5 (amended): after `Reset()`, regardless of prior `Advance()` history, every
axis index is zero — so `GetProductSet` yields the tuple of each axis's first
element — while the iteration counter is left unchanged. -/
theorem c5_reset_zeroes_indices_not_iteration (axes : List (List (List Char)))
    (e : CartExp) (h : e.state.length = axes.length) :
    (cartReset e).state = e.state.map (fun _ => 0) ∧
    (cartReset e).iteration = e.iteration ∧
    getProductSet axes (cartReset e).state = axes.map (fun ax => ax.headD []) :=
  ⟨rfl, rfl, zipWith_getD_zeros axes e.state h⟩

theorem c5_witness :
    ((cartAdvance (cartAdvance (cartInit [3, 3])).2).2.state.length =
      ([["Alice".toList, "Bob".toList, "Charlie".toList],
        ["8".toList, "21".toList, "50".toList]] : List (List (List Char))).length) ∧
    getProductSet
        [["Alice".toList, "Bob".toList, "Charlie".toList],
         ["8".toList, "21".toList, "50".toList]]
        (cartReset (cartAdvance (cartAdvance (cartInit [3, 3])).2).2).state =
      [["Alice".toList, "Bob".toList, "Charlie".toList],
       ["8".toList, "21".toList, "50".toList]].map (fun ax => ax.headD []) :=
  ⟨by decide, (c5_reset_zeroes_indices_not_iteration _ _ (by decide)).2.2⟩

/-- C6 counterexample: a parameter space of two axes of 2^17 values each has
2^34 combinations, all positive sizes; the combination with ordinal 2^32 exists
(2^32 < 2^34), but after 2^32 `Advance()` calls the `uint32_t` iteration counter
has wrapped back to 0, so `IterationOrdinal()` does not read 2^32 there — the
sequence of iteration ordinals is not 0, 1, …, (product-1). -/
theorem c6_counterexample :
    4294967296 < prodList [131072, 131072] ∧
    (cartStepN 4294967296 (cartInit [131072, 131072])).iteration = 0 ∧
    ¬ (cartStepN 4294967296 (cartInit [131072, 131072])).iteration = 4294967296 := by
  have h := cartStepN_iteration 4294967296 (cartInit [131072, 131072])
    (by show (0 : Nat) < 4294967296; norm_num)
  refine ⟨by decide, ?_, ?_⟩
  · rw [h]
    decide
  · rw [h]
    decide

/-- C6 (amended): for all-positive axis sizes, starting from the all-zero state,
the k-th combination (k running from 0) carries mixed-radix value k with axis 0
least significant (fastest-varying) and iteration ordinal k reduced modulo 2^32
(`mIteration` is a `uint32_t`), hence ordinal exactly k whenever the product of
the sizes is at most 2^32; each of the first product-1 `Advance()` calls returns
true and the product-th returns false, wrapping the state back to all zeros; and
the Names/Ages worked example enumerates its nine pairs in the documented order
before `Advance()` returns false. -/
theorem c6_cartesian_enumeration (sizes : List Nat) (hpos : ∀ s ∈ sizes, 0 < s) :
    (∀ k, k < prodList sizes →
        (cartStepN k (cartInit sizes)).iteration = k % 4294967296 ∧
        (prodList sizes ≤ 4294967296 → (cartStepN k (cartInit sizes)).iteration = k) ∧
        stateVal sizes (cartStepN k (cartInit sizes)).state = k ∧
        ((cartAdvance (cartStepN k (cartInit sizes))).1 = true ↔ k + 1 < prodList sizes)) ∧
    (cartStepN (prodList sizes) (cartInit sizes)).state = sizes.map (fun _ => 0) ∧
    ((List.range 9).map (fun k =>
        getProductSet
          [["Alice".toList, "Bob".toList, "Charlie".toList],
           ["8".toList, "21".toList, "50".toList]]
          (cartStepN k (cartInit [3, 3])).state) =
      [["Alice".toList, "8".toList], ["Bob".toList, "8".toList],
       ["Charlie".toList, "8".toList],
       ["Alice".toList, "21".toList], ["Bob".toList, "21".toList],
       ["Charlie".toList, "21".toList],
       ["Alice".toList, "50".toList], ["Bob".toList, "50".toList],
       ["Charlie".toList, "50".toList]] ∧
     (cartAdvance (cartStepN 8 (cartInit [3, 3]))).1 = false) := by
  refine ⟨?_, ?_, by decide, by decide⟩
  · intro k hk
    obtain ⟨hv, hval⟩ := cartStepN_invariant sizes hpos k hk
    have hit : (cartStepN k (cartInit sizes)).iteration = k % 4294967296 := by
      rw [cartStepN_iteration k (cartInit sizes) (by show (0 : Nat) < 4294967296; norm_num)]
      show (0 + k) % 4294967296 = k % 4294967296
      rw [Nat.zero_add]
    refine ⟨hit, ?_, hval, ?_⟩
    · intro hbound
      rw [hit, Nat.mod_eq_of_lt (by omega)]
    · rw [cartAdvance_fst, cartStepN_sizes]
      show (advanceState sizes (cartStepN k (cartInit sizes)).state).1 = true ↔
        k + 1 < prodList sizes
      constructor
      · intro hfst
        by_contra hge
        have heq : stateVal sizes (cartStepN k (cartInit sizes)).state + 1 =
            prodList sizes := by
          have := stateVal_lt_prod sizes _ hv
          omega
        have h2 := (advanceState_spec sizes _ hv).2 heq
        rw [h2.1] at hfst
        exact absurd hfst (by decide)
      · intro hlt
        exact ((advanceState_spec sizes _ hv).1 (by omega)).1
  · have hp := prodList_pos sizes hpos
    obtain ⟨pp, hP⟩ : ∃ pp, prodList sizes = pp + 1 := ⟨prodList sizes - 1, by omega⟩
    rw [hP, cartStepN_succ_right, cartAdvance_state, cartStepN_sizes]
    obtain ⟨hv, hval⟩ := cartStepN_invariant sizes hpos pp (by omega)
    have h2 := (advanceState_spec sizes _ hv).2 (by omega)
    show (advanceState sizes (cartStepN pp (cartInit sizes)).state).2 = _
    exact h2.2

theorem c6_witness :
    (∀ s ∈ [3, 3], 0 < s) ∧
      (cartStepN (prodList [3, 3]) (cartInit [3, 3])).state = [3, 3].map (fun _ => 0) :=
  ⟨by intro s hs; simp at hs; omega,
   (c6_cartesian_enumeration [3, 3] (by intro s hs; simp at hs; omega)).2.1⟩

theorem visitTest_disallowed (suite id : List Char) (o : Outcome) (acc : RunAcc) :
    visitTest false suite id o acc = { acc with ignored := acc.ignored + 1 } := rfl

theorem visitTest_allowed (suite id : List Char) (o : Outcome) (acc : RunAcc) :
    (visitTest true suite id o acc).run = acc.run + 1 ∧
    (visitTest true suite id o acc).passed =
      acc.passed + (if o = Outcome.ok then 1 else 0) ∧
    (visitTest true suite id o acc).ignored = acc.ignored ∧
    (visitTest true suite id o acc).lastSuite = some suite ∧
    suiteHeadersOf (visitTest true suite id o acc).events =
      suiteHeadersOf acc.events ++
        (if some suite = acc.lastSuite then [] else [suite]) ∧
    startedOf (visitTest true suite id o acc).events = startedOf acc.events ++ [id] ∧
    finishedOf (visitTest true suite id o acc).events =
      finishedOf acc.events ++ [(id, decide (o = Outcome.ok))] := by
  by_cases hls : some suite = acc.lastSuite <;>
    cases o <;>
      simp [visitTest, testRun, hls, suiteHeadersOf, startedOf, finishedOf,
        List.filterMap_append]

theorem runAllCpp_spec (inc exc : List Char) :
    ∀ (tests : List PlainTest) (acc : RunAcc),
      (runAllCpp inc exc tests acc).run =
        acc.run + (tests.filter (fun t => IsAllowedCpp inc exc t.suite t.name)).length ∧
      (runAllCpp inc exc tests acc).passed =
        acc.passed +
          ((tests.filter (fun t => IsAllowedCpp inc exc t.suite t.name)).filter
            (fun t => decide (t.body = Outcome.ok))).length ∧
      (runAllCpp inc exc tests acc).ignored =
        acc.ignored +
          (tests.filter (fun t => ! IsAllowedCpp inc exc t.suite t.name)).length ∧
      suiteHeadersOf (runAllCpp inc exc tests acc).events =
        suiteHeadersOf acc.events ++
          headerChain acc.lastSuite
            ((tests.filter (fun t => IsAllowedCpp inc exc t.suite t.name)).map (·.suite)) ∧
      startedOf (runAllCpp inc exc tests acc).events =
        startedOf acc.events ++
          (tests.filter (fun t => IsAllowedCpp inc exc t.suite t.name)).map
            (fun t => candidateId t.suite t.name) ∧
      finishedOf (runAllCpp inc exc tests acc).events =
        finishedOf acc.events ++
          (tests.filter (fun t => IsAllowedCpp inc exc t.suite t.name)).map
            (fun t => (candidateId t.suite t.name, decide (t.body = Outcome.ok))) := by
  intro tests
  induction tests with
  | nil => intro acc; simp [runAllCpp, headerChain]
  | cons t ts ih =>
    intro acc
    rw [show runAllCpp inc exc (t :: ts) acc =
      runAllCpp inc exc ts (visitCpp inc exc t acc) from rfl]
    cases hall : IsAllowedCpp inc exc t.suite t.name with
    | false =>
      have hv : visitCpp inc exc t acc = { acc with ignored := acc.ignored + 1 } := by
        rw [visitCpp, hall, visitTest_disallowed]
      rw [hv]
      obtain ⟨h1, h2, h3, h4, h5, h6⟩ := ih { acc with ignored := acc.ignored + 1 }
      simp only [List.filter_cons, hall, Bool.not_false, if_true, if_false,
        Bool.false_eq_true, reduceIte] at *
      refine ⟨h1, h2, ?_, h4, h5, h6⟩
      rw [h3]
      simp only [List.length_cons]
      omega
    | true =>
      obtain ⟨v1, v2, v3, v4, v5, v6, v7⟩ :=
        visitTest_allowed t.suite (candidateId t.suite t.name) t.body acc
      have hvc : visitCpp inc exc t acc =
          visitTest true t.suite (candidateId t.suite t.name) t.body acc := by
        rw [visitCpp, hall]
      rw [hvc]
      obtain ⟨h1, h2, h3, h4, h5, h6⟩ :=
        ih (visitTest true t.suite (candidateId t.suite t.name) t.body acc)
      simp only [List.filter_cons, hall, Bool.not_true, if_true, if_false,
        Bool.true_eq_false, reduceIte, List.length_cons, List.map_cons]
      refine ⟨?_, ?_, ?_, ?_, ?_, ?_⟩
      · rw [h1, v1]; omega
      · rw [h2, v2]
        by_cases hbody : t.body = Outcome.ok <;>
          simp [hbody, List.filter_cons] <;> omega
      · rw [h3, v3]
        simp
      · rw [h4, v5, v4]
        by_cases hls : some t.suite = acc.lastSuite
        · rw [headerChain, if_pos hls, ← hls]
          simp
        · rw [headerChain]
          simp [hls]
      · rw [h5, v6]
        simp
      · rw [h6, v7]
        simp

/-- C8: every abnormal termination of a test body is converted by `Test::Run` into
a `false` result recorded for that test alone — each allowed test, even one after
a failing test, contributes exactly one finished event carrying its own outcome —
and `RunTests` returns `run - passed`, which is 0 exactly when every executed test
passed. -/
theorem c8_failures_contained (inc exc : List Char) (tests : List PlainTest) :
    ((RunTestsCpp inc exc tests).1 =
      (RunTestsCpp inc exc tests).2.run - (RunTestsCpp inc exc tests).2.passed) ∧
    (RunTestsCpp inc exc tests).2.passed ≤ (RunTestsCpp inc exc tests).2.run ∧
    (RunTestsCpp inc exc tests).2.run =
      (tests.filter (fun t => IsAllowedCpp inc exc t.suite t.name)).length ∧
    (RunTestsCpp inc exc tests).2.ignored =
      (tests.filter (fun t => ! IsAllowedCpp inc exc t.suite t.name)).length ∧
    finishedOf (RunTestsCpp inc exc tests).2.events =
      (tests.filter (fun t => IsAllowedCpp inc exc t.suite t.name)).map
        (fun t => (candidateId t.suite t.name, decide (t.body = Outcome.ok))) ∧
    ((RunTestsCpp inc exc tests).1 = 0 ↔
      ∀ t ∈ tests.filter (fun t => IsAllowedCpp inc exc t.suite t.name),
        t.body = Outcome.ok) := by
  obtain ⟨h1, h2, h3, h4, h5, h6⟩ :=
    runAllCpp_spec inc exc tests ⟨0, 0, 0, none, []⟩
  simp only [show (⟨0, 0, 0, none, []⟩ : RunAcc).run = 0 from rfl,
    show (⟨0, 0, 0, none, []⟩ : RunAcc).passed = 0 from rfl,
    show (⟨0, 0, 0, none, []⟩ : RunAcc).ignored = 0 from rfl,
    show (⟨0, 0, 0, none, []⟩ : RunAcc).events = [] from rfl,
    Nat.zero_add] at h1 h2 h3 h6
  have e1 : (RunTestsCpp inc exc tests).1 =
      (runAllCpp inc exc tests ⟨0, 0, 0, none, []⟩).run -
        (runAllCpp inc exc tests ⟨0, 0, 0, none, []⟩).passed := rfl
  have e2 : (RunTestsCpp inc exc tests).2 =
      runAllCpp inc exc tests ⟨0, 0, 0, none, []⟩ := rfl
  rw [e1, e2]
  have hle : ((tests.filter (fun t => IsAllowedCpp inc exc t.suite t.name)).filter
        (fun t => decide (t.body = Outcome.ok))).length ≤
      (tests.filter (fun t => IsAllowedCpp inc exc t.suite t.name)).length :=
    List.length_filter_le _ _
  refine ⟨rfl, by omega, h1, h3, by simpa using h6, ?_⟩
  constructor
  · intro hz t ht
    have hlen : ((tests.filter (fun t => IsAllowedCpp inc exc t.suite t.name)).filter
          (fun t => decide (t.body = Outcome.ok))).length =
        (tests.filter (fun t => IsAllowedCpp inc exc t.suite t.name)).length := by
      omega
    have hall := List.filter_length_eq_length.1 hlen
    exact of_decide_eq_true (hall t ht)
  · intro hok
    have hlen : ((tests.filter (fun t => IsAllowedCpp inc exc t.suite t.name)).filter
          (fun t => decide (t.body = Outcome.ok))).length =
        (tests.filter (fun t => IsAllowedCpp inc exc t.suite t.name)).length :=
      List.filter_length_eq_length.2 (fun t ht => decide_eq_true (hok t ht))
    omega

theorem c8_witness :
    (RunTestsCpp ['*'] []
      [⟨"S".toList, "A".toList, Outcome.failMsg "Expected: x == y".toList⟩,
       ⟨"S".toList, "B".toList, Outcome.ok⟩]).2.passed ≤
      (RunTestsCpp ['*'] []
        [⟨"S".toList, "A".toList, Outcome.failMsg "Expected: x == y".toList⟩,
         ⟨"S".toList, "B".toList, Outcome.ok⟩]).2.run :=
  (c8_failures_contained ['*'] [] _).2.1

/-- C9 counterexample: with tests Suite1_A and Suite2_B and an exclude pattern
killing Suite2_B, the run emits exactly one suite header, for Suite1; no header
fires for the filtered-out entry's suite Suite2, because the suite check sits
inside the `IsAllowed` branch — the claim's "suite is checked before filtering"
prediction of a Suite2 header is false. -/
theorem c9_counterexample :
    suiteHeadersOf (RunTestsCpp ['*'] "Suite2*".toList
      [⟨"Suite1".toList, "A".toList, Outcome.ok⟩,
       ⟨"Suite2".toList, "B".toList, Outcome.ok⟩]).2.events = ["Suite1".toList] ∧
    ¬ ("Suite2".toList ∈ suiteHeadersOf (RunTestsCpp ['*'] "Suite2*".toList
      [⟨"Suite1".toList, "A".toList, Outcome.ok⟩,
       ⟨"Suite2".toList, "B".toList, Outcome.ok⟩]).2.events) :=
  ⟨by decide, by decide⟩

/-- C9 (amended): a suite-header event fires exactly when the suite of the current
allowed descriptor differs from that of the previously executed allowed one (the
suite is checked after filtering, so filtered-out entries fire no header); for
declared tests Suite1_A, Suite1_B, Suite2_C with no filter, exactly two suite
headers fire, before A and before C. -/
theorem c9_suite_headers_after_filtering (inc exc : List Char) (tests : List PlainTest) :
    suiteHeadersOf (RunTestsCpp inc exc tests).2.events =
      headerChain none
        ((tests.filter (fun t => IsAllowedCpp inc exc t.suite t.name)).map (·.suite)) ∧
    (RunTestsCpp ['*'] []
      [⟨"Suite1".toList, "A".toList, Outcome.ok⟩,
       ⟨"Suite1".toList, "B".toList, Outcome.ok⟩,
       ⟨"Suite2".toList, "C".toList, Outcome.ok⟩]).2.events =
    [Event.suiteHeader "Suite1".toList,
     Event.started "Suite1_A".toList, Event.finished "Suite1_A".toList true,
     Event.started "Suite1_B".toList, Event.finished "Suite1_B".toList true,
     Event.suiteHeader "Suite2".toList,
     Event.started "Suite2_C".toList, Event.finished "Suite2_C".toList true] := by
  constructor
  · have h := (runAllCpp_spec inc exc tests ⟨0, 0, 0, none, []⟩).2.2.2.1
    show suiteHeadersOf (runAllCpp inc exc tests ⟨0, 0, 0, none, []⟩).events = _
    simpa using h
  · decide

theorem c9_witness :
    suiteHeadersOf (RunTestsCpp ['*'] []
        [⟨"S".toList, "T".toList, Outcome.ok⟩]).2.events =
      headerChain none
        ((([⟨"S".toList, "T".toList, Outcome.ok⟩] : List PlainTest).filter
          (fun t => IsAllowedCpp ['*'] [] t.suite t.name)).map (·.suite)) :=
  (c9_suite_headers_after_filtering ['*'] [] _).1

theorem paramVisits_succ (inc exc suite name : List Char)
    (axes : List (List Char × List (List Char)))
    (body : List (List Char) → Nat → Outcome) (fuel : Nat) (e : CartExp) (acc : RunAcc) :
    paramVisits inc exc suite name axes body (fuel + 1) e acc =
      (if (cartAdvance e).1 then
        paramVisits inc exc suite name axes body fuel (cartAdvance e).2
          (visitTest (IsAllowedSV inc exc (paramId suite name axes e.state)) suite
            (paramId suite name axes e.state)
            (body (getProductSet (axes.map (·.2)) e.state) e.iteration) acc)
      else
        (visitTest (IsAllowedSV inc exc (paramId suite name axes e.state)) suite
          (paramId suite name axes e.state)
          (body (getProductSet (axes.map (·.2)) e.state) e.iteration) acc,
         cartReset (cartAdvance e).2)) := rfl

theorem paramVisits_all_disallowed (inc exc suite name : List Char)
    (axes : List (List Char × List (List Char)))
    (body : List (List Char) → Nat → Outcome)
    (hdis : ∀ st : List Nat, validState (axesSizes axes) st = true →
      IsAllowedSV inc exc (paramId suite name axes st) = false) :
    ∀ (fuel : Nat) (e : CartExp) (acc : RunAcc),
      e.sizes = axesSizes axes →
      validState (axesSizes axes) e.state = true →
      fuel + stateVal (axesSizes axes) e.state = prodList (axesSizes axes) →
      e.iteration < 4294967296 →
      paramVisits inc exc suite name axes body fuel e acc =
        ({ acc with ignored := acc.ignored + fuel },
         { sizes := axesSizes axes, state := (axesSizes axes).map (fun _ => 0),
           iteration := (e.iteration + fuel) % 4294967296 }) := by
  intro fuel
  induction fuel with
  | zero =>
    intro e acc hsz hv hfull hbound
    exfalso
    have := stateVal_lt_prod _ _ hv
    omega
  | succ n ih =>
    intro e acc hsz hv hfull hbound
    rw [paramVisits_succ, hdis e.state hv, visitTest_disallowed]
    have hlt := stateVal_lt_prod _ _ hv
    have hfst : (cartAdvance e).1 = (advanceState (axesSizes axes) e.state).1 := by
      rw [cartAdvance_fst, hsz]
    have hstate : (cartAdvance e).2.state = (advanceState (axesSizes axes) e.state).2 := by
      rw [cartAdvance_state, hsz]
    by_cases hcase : stateVal (axesSizes axes) e.state + 1 < prodList (axesSizes axes)
    · obtain ⟨hb, hv2, hval2⟩ := (advanceState_spec _ _ hv).1 hcase
      rw [hfst, hb, if_pos rfl]
      rw [ih (cartAdvance e).2 _ (by rw [cartAdvance_sizes, hsz])
        (by rw [hstate]; exact hv2) (by rw [hstate, hval2]; omega)
        (by rw [cartAdvance_iteration]; exact Nat.mod_lt _ (by norm_num))]
      simp only [Prod.mk.injEq, RunAcc.mk.injEq, CartExp.mk.injEq, cartAdvance_iteration,
        Nat.mod_add_mod, true_and, and_true]
      constructor
      · omega
      · congr 1
        omega
    · have hceq : stateVal (axesSizes axes) e.state + 1 = prodList (axesSizes axes) := by
        omega
      obtain ⟨hb, hz⟩ := (advanceState_spec _ _ hv).2 hceq
      have hn : n = 0 := by omega
      subst hn
      rw [hfst, hb, if_neg (by decide)]
      simp only [Prod.mk.injEq, RunAcc.mk.injEq, CartExp.mk.injEq, cartReset,
        cartAdvance_iteration, cartAdvance_sizes, cartAdvance_state, hsz, hz,
        List.map_map, true_and, and_true]
      rfl

/-- C4 counterexample: one `XM_TEST_C` descriptor with 2 combinations under an
exclude-everything filter: the pass ignores it twice (once per combination), not
once, and its combination generator is advanced through the whole space (two
`Advance()` calls, iteration counter 2), contradicting "without advancing any
parameter combination ... its combination state left untouched". -/
theorem c4_counterexample :
    (RunTestsSV ['*'] ['*']
      [TestDesc.param "S".toList "T".toList
        [("Color".toList, ["red".toList, "blue".toList])]
        (fun _ _ => Outcome.ok)]).2.ignored = 2 ∧
    ¬ (RunTestsSV ['*'] ['*']
      [TestDesc.param "S".toList "T".toList
        [("Color".toList, ["red".toList, "blue".toList])]
        (fun _ _ => Outcome.ok)]).2.ignored = 1 ∧
    (paramVisits ['*'] ['*'] "S".toList "T".toList
      [("Color".toList, ["red".toList, "blue".toList])] (fun _ _ => Outcome.ok) 2
      (cartInit [2]) ⟨0, 0, 0, none, []⟩).2.iteration = 2 ∧
    ¬ (paramVisits ['*'] ['*'] "S".toList "T".toList
      [("Color".toList, ["red".toList, "blue".toList])] (fun _ _ => Outcome.ok) 2
      (cartInit [2]) ⟨0, 0, 0, none, []⟩).2.iteration = 0 := by
  refine ⟨by decide, by decide, by decide, by decide⟩

/-- C4 (amended): when the filter disallows a descriptor's current id, the runner
increments ignored and does not run the body; but for a parameterized descriptor
`GetNext()` advances the combination after every visit, allowed or not, so every
combination is offered and filtered individually: a fully disallowed parameterized
descriptor adds one ignored count per combination, leaves counters and events
otherwise untouched, and ends the pass with its axis indices reset to zero and its
`uint32_t` iteration counter advanced by the number of combinations, reduced
modulo 2^32. -/
theorem c4_filtered_param_descriptor (inc exc suite name : List Char)
    (axes : List (List Char × List (List Char)))
    (body : List (List Char) → Nat → Outcome) (acc : RunAcc)
    (hdis : ∀ st : List Nat, validState (axesSizes axes) st = true →
      IsAllowedSV inc exc (paramId suite name axes st) = false)
    (hpos : ∀ n ∈ axesSizes axes, 0 < n) :
    runDescSV inc exc (TestDesc.param suite name axes body) acc =
      { acc with ignored := acc.ignored + prodList (axesSizes axes) } ∧
    paramVisits inc exc suite name axes body (prodList (axesSizes axes))
        (cartInit (axesSizes axes)) acc =
      ({ acc with ignored := acc.ignored + prodList (axesSizes axes) },
       { sizes := axesSizes axes, state := (axesSizes axes).map (fun _ => 0),
         iteration := prodList (axesSizes axes) % 4294967296 }) := by
  have h := paramVisits_all_disallowed inc exc suite name axes body hdis
    (prodList (axesSizes axes)) (cartInit (axesSizes axes)) acc rfl
    (validState_zeros _ hpos)
    (by rw [show (cartInit (axesSizes axes)).state =
        (axesSizes axes).map (fun _ => 0) from rfl, stateVal_zeros]; omega)
    (by show (0 : Nat) < 4294967296; norm_num)
  constructor
  · show (paramVisits inc exc suite name axes body (prodList (axesSizes axes))
        (cartInit (axesSizes axes)) acc).1 = _
    rw [h]
  · rw [h]
    simp [cartInit]

theorem c4_witness :
    (∀ st : List Nat,
      validState (axesSizes [("Color".toList, ["red".toList, "blue".toList])]) st = true →
      IsAllowedSV ['*'] ['*']
        (paramId "S".toList "T".toList
          [("Color".toList, ["red".toList, "blue".toList])] st) = false) ∧
    runDescSV ['*'] ['*']
        (TestDesc.param "S".toList "T".toList
          [("Color".toList, ["red".toList, "blue".toList])] (fun _ _ => Outcome.ok))
        ⟨0, 0, 0, none, []⟩ =
      { (⟨0, 0, 0, none, []⟩ : RunAcc) with
        ignored := (⟨0, 0, 0, none, []⟩ : RunAcc).ignored +
          prodList (axesSizes [("Color".toList, ["red".toList, "blue".toList])]) } :=
  ⟨fun st _ => Bool.and_not_self _,
   (c4_filtered_param_descriptor ['*'] ['*'] "S".toList "T".toList
      [("Color".toList, ["red".toList, "blue".toList])] (fun _ _ => Outcome.ok)
      ⟨0, 0, 0, none, []⟩ (fun st _ => Bool.and_not_self _)
      (by intro n hn; simp [axesSizes] at hn; omega)).1⟩
